import Mathlib

/-!
Shallow embedding of `scripts/update_live_intel.py`, the live trade-intel
feed builder: text normalisation, keyword relevance filtering, the RSS /
Atom / JSON-API / HTML-scrape parsers, the per-source fetchers with their
error capture, and the snapshot assembly, together with theorems about the
specified behaviour.

Strings are modelled as Lean `String` (a list of Unicode code points),
matching Python `str`.  Network retrieval (`fetch_text`) and — where the
source parses inside the same `try` block — XML parsing (`ET.fromstring`)
are effectful, so each fetcher takes the outcome of that step as an
`Except String` parameter: `.ok` carries the retrieved (and, for XML
sources, parsed) data, `.error` carries the exception message.
-/

/-- Characters matched by the Python `re` pattern `\s` on `str` (and stripped
by `str.strip()`): the ASCII whitespace characters together with the
Unicode whitespace code points. -/
def pySpace (c : Char) : Bool :=
  let n := c.toNat
  n == 32 || n == 9 || n == 10 || n == 11 || n == 12 || n == 13 ||
    (28 ≤ n && n ≤ 31) || n == 133 || n == 160 || n == 5760 ||
    (8192 ≤ n && n ≤ 8202) || n == 8232 || n == 8233 || n == 8239 ||
    n == 8287 || n == 12288

/-- `str.strip()` on the right: drop trailing whitespace. -/
def dropTrailingWs (l : List Char) : List Char :=
  (l.reverse.dropWhile pySpace).reverse

/-- `str.strip()`: drop leading and trailing whitespace. -/
def stripWs (l : List Char) : List Char :=
  dropTrailingWs (l.dropWhile pySpace)

/-- `re.sub(r"\s+", " ", ·)`: replace every maximal run of whitespace
characters by a single space.  A whitespace character is skipped while its
successor is also whitespace; the last character of each run emits the
space. -/
def collapseWs : List Char → List Char
  | [] => []
  | [c] => if pySpace c then [' '] else [c]
  | c₁ :: c₂ :: rest =>
    if pySpace c₁ then
      if pySpace c₂ then collapseWs (c₂ :: rest)
      else ' ' :: collapseWs (c₂ :: rest)
    else c₁ :: collapseWs (c₂ :: rest)

/-- `normalize_ws` on the character list: `re.sub(r"\s+", " ", text.strip())`. -/
def normWsL (l : List Char) : List Char :=
  collapseWs (stripWs l)

/-- `normalize_ws(text)`: collapse whitespace runs of the stripped text to
single spaces.  (`text or ""` is the identity on actual strings.) -/
def normalize_ws (s : String) : String :=
  ⟨normWsL s.data⟩

/-- Python `str.lower()`, restricted to the ASCII range (the keyword
vocabulary and all pattern literals in the script are ASCII, so the
non-ASCII case foldings can never produce a match and are omitted). -/
def lowerL (l : List Char) : List Char :=
  l.map Char.toLower

/-- Python substring test `needle in hay` on character lists. -/
def containsSub (needle : List Char) : List Char → Bool
  | [] => needle.isEmpty
  | l@(_ :: t) => needle.isPrefixOf l || containsSub needle t

/-- The fixed keyword vocabulary `KEYWORDS`. -/
def KEYWORDS : List String :=
  ["tariff", "tariffs", "duty", "duties", "countermeasure", "countermeasures",
   "retaliat", "section 232", "section 301", "ieepa", "customs", "trade",
   "import", "export"]

/-- `contains_keyword(text)`: lower-case the text and test whether any
keyword occurs as a substring. -/
def contains_keyword (text : String) : Bool :=
  let t := lowerL text.data
  KEYWORDS.any (fun k => containsSub k.data t)

/-- Named character references decoded by `html.unescape`, restricted to
the references exercised in this development (the full HTML5 table and
numeric references behave identically on every input appearing here). -/
def ENTITIES : List (List Char × Char) :=
  [("&amp;".data, '&'), ("&lt;".data, '<'), ("&gt;".data, '>'),
   ("&quot;".data, Char.ofNat 34), ("&apos;".data, Char.ofNat 39),
   ("&nbsp;".data, Char.ofNat 160)]

/-- `html.unescape`: replace each entity reference by its character,
scanning left to right.  Fuel is the length of the input. -/
def unescapeAux : Nat → List Char → List Char
  | _, [] => []
  | 0, l => l
  | fuel + 1, c :: rest =>
    if c = '&' then
      match ENTITIES.find? (fun e => e.1.isPrefixOf (c :: rest)) with
      | some e => e.2 :: unescapeAux fuel (List.drop e.1.length (c :: rest))
      | none => c :: unescapeAux fuel rest
    else c :: unescapeAux fuel rest

/-- `html.unescape` on a character list. -/
def unescapeL (l : List Char) : List Char :=
  unescapeAux l.length l

/-- Case-insensitive literal prefix test: `pat` (given lower-case) is a
prefix of the lower-casing of `l`. -/
def ciPrefix (pat l : List Char) : Bool :=
  pat == lowerL (l.take pat.length)

/-- Index of the first case-insensitive occurrence of `pat` in `l`. -/
def findCI (pat : List Char) : List Char → Option Nat
  | [] => if pat.isEmpty then some 0 else none
  | l@(_ :: t) =>
    if ciPrefix pat l then some 0 else (findCI pat t).map (· + 1)

/-- `re.sub(r"<script[\s\S]*?</script>", " ", ·, flags=IGNORECASE)` (and
likewise for `<style>`): at each case-insensitive occurrence of the opening
literal, the lazy body extends to the first occurrence of the closing
literal; the whole match is replaced by one space and scanning resumes
after it.  An opening literal with no closing occurrence matches nothing.
Fuel is the length of the input. -/
def removeBlocksAux (openP closeP : List Char) : Nat → List Char → List Char
  | _, [] => []
  | 0, l => l
  | fuel + 1, c :: rest =>
    if ciPrefix openP (c :: rest) then
      match findCI closeP (List.drop openP.length (c :: rest)) with
      | some i =>
        ' ' :: removeBlocksAux openP closeP fuel
          (List.drop (i + closeP.length) (List.drop openP.length (c :: rest)))
      | none => c :: removeBlocksAux openP closeP fuel rest
    else c :: removeBlocksAux openP closeP fuel rest

/-- Block removal with fuel set to the input length. -/
def removeBlocks (openP closeP : List Char) (l : List Char) : List Char :=
  removeBlocksAux openP closeP l.length l

/-- `re.sub(r"<[^>]+>", " ", ·)`: each `<` followed by at least one
non-`>` character and then `>` is replaced, with its body, by one space;
a `<` not starting such a span is kept. -/
def removeTagsAux : Nat → List Char → List Char
  | _, [] => []
  | 0, l => l
  | fuel + 1, c :: rest =>
    if c = '<' then
      match rest.findIdx? (fun d => d == '>') with
      | some 0 => c :: removeTagsAux fuel rest
      | some (i + 1) => ' ' :: removeTagsAux fuel (rest.drop (i + 2))
      | none => c :: removeTagsAux fuel rest
    else c :: removeTagsAux fuel rest

/-- Tag removal with fuel set to the input length. -/
def removeTags (l : List Char) : List Char :=
  removeTagsAux l.length l

/-- `strip_tags(html)`: delete `<script>` and `<style>` blocks (content
included, case-insensitively), strip the remaining tags, decode HTML
entities, then normalise whitespace. -/
def strip_tags (html : String) : String :=
  let t1 := removeBlocks "<script".data "</script>".data html.data
  let t2 := removeBlocks "<style".data "</style>".data t1
  let t3 := removeTags t2
  ⟨normWsL (unescapeL t3)⟩

/-- No two adjacent characters are both whitespace. -/
def noAdjWs : List Char → Bool
  | [] => true
  | [_] => true
  | c₁ :: c₂ :: rest => !(pySpace c₁ && pySpace c₂) && noAdjWs (c₂ :: rest)

/-- Every whitespace character of the list is the plain space. -/
def wsIsSpace (l : List Char) : Bool :=
  l.all (fun c => !pySpace c || c == ' ')

/-- Python string comparison `≤`: lexicographic by code point. -/
def strLeL : List Char → List Char → Bool
  | [], _ => true
  | _ :: _, [] => false
  | a :: as, b :: bs =>
    if a.toNat < b.toNat then true
    else if b.toNat < a.toNat then false
    else strLeL as bs

/-- Python tuple comparison `≤` on a pair of strings: lexicographic, first
component first. -/
def pairLeL (p q : List Char × List Char) : Bool :=
  if p.1 == q.1 then strLeL p.2 q.2 else strLeL p.1 q.1

/-- An XML element as produced by `xml.etree.ElementTree`: tag, attributes,
text content (the text before the first child, `None` when absent) and the
list of child elements.  Namespace-qualified tags are spelled in Clark
notation, as `ElementTree` resolves them. -/
inductive Xml where
  | elem (tag : String) (attrs : List (String × String)) (text : Option String)
      (children : List Xml)

/-- Tag of the element. -/
def Xml.tag : Xml → String
  | .elem t _ _ _ => t

/-- Attribute list of the element (`attrib`). -/
def Xml.attrs : Xml → List (String × String)
  | .elem _ a _ _ => a

/-- Text content of the element (`.text`). -/
def Xml.text : Xml → Option String
  | .elem _ _ t _ => t

/-- Children of the element. -/
def Xml.children : Xml → List Xml
  | .elem _ _ _ c => c

/-- `element.find(tag)`: the first direct child with the given tag. -/
def findChild (x : Xml) (t : String) : Option Xml :=
  x.children.find? (fun c => c.tag == t)

/-- `element.findall(tag)`: all direct children with the given tag. -/
def findAllChildren (x : Xml) (t : String) : List Xml :=
  x.children.filter (fun c => c.tag == t)

/-- `element.findtext(tag)`: `none` when no such child exists, and the
text of the child (the empty string when the child has no text) otherwise. -/
def findText (x : Xml) (t : String) : Option String :=
  (findChild x t).map (fun c => c.text.getD "")

/-- The uniform record built by `parse_rss_items` for one `<item>`. -/
structure RssItem where
  title : String
  link : String
  pub_date : String
  guid : String
  category : String
  description : String
deriving DecidableEq

/-- `parse_rss_items(xml_text)` after `ET.fromstring`: walk
`<channel><item>` elements of the root.  A root without a `channel` child
yields the empty list. -/
def parse_rss_items (root : Xml) : List RssItem :=
  match findChild root "channel" with
  | none => []
  | some channel =>
    (findAllChildren channel "item").map (fun item =>
      { title := normalize_ws ((findText item "title").getD "")
        link := normalize_ws ((findText item "link").getD "")
        pub_date := normalize_ws ((findText item "pubDate").getD "")
        guid := normalize_ws ((findText item "guid").getD "")
        category := String.intercalate ", "
          (((findAllChildren item "category").filter
              (fun c => !(stripWs (c.text.getD "").data).isEmpty)).map
            (fun c => normalize_ws (c.text.getD "")))
        description := ⟨(strip_tags ((findText item "description").getD "")).data.take 700⟩ })

/-- Clark-notation tag of the Atom namespace, as `findall("a:entry", ns)`
resolves it. -/
def atomTag (name : String) : String :=
  "\x7bhttp://www.w3.org/2005/Atom\x7d" ++ name

/-- The uniform record built by `parse_atom_entries` for one `<entry>`. -/
structure AtomEntry where
  title : String
  link : String
  updated : String
  summary : String
deriving DecidableEq

/-- `parse_atom_entries(xml_text)` after `ET.fromstring`: walk the Atom
`<entry>` elements of the root; the link comes from the `href` attribute
of the first `<link>` child. -/
def parse_atom_entries (root : Xml) : List AtomEntry :=
  (findAllChildren root (atomTag "entry")).map (fun entry =>
    { title := normalize_ws ((findText entry (atomTag "title")).getD "")
      updated := normalize_ws ((findText entry (atomTag "updated")).getD "")
      summary := normalize_ws ((findText entry (atomTag "summary")).getD "")
      link :=
        match findChild entry (atomTag "link") with
        | none => ""
        | some ln => normalize_ws ((ln.attrs.lookup "href").getD "") })

/-- A per-source outcome: `source`, `source_url`, the bounded item list and
the captured error strings. -/
structure FetchResult (α : Type) where
  source : String
  source_url : String
  items : List α
  errors : List String

/-- `FEEDS["federal_register"]["base"]`. -/
def FR_BASE : String := "https://www.federalregister.gov/api/v1/documents.json"

/-- `FEEDS["federal_register"]["terms"]`. -/
def FR_TERMS : List String :=
  ["tariff", "duty", "section 232", "reciprocal tariff", "de minimis"]

/-- `FEEDS["federal_register"]["source"]`. -/
def FR_SOURCE : String := "Federal Register API"

/-- `FEEDS["cbp_csms"]`. -/
def CBP_URL : String :=
  "https://content.govdelivery.com/accounts/USDHSCBP/widgets/USDHSCBP_WIDGET_2.rss"

/-- `FEEDS["cbp_csms"]["source"]`. -/
def CBP_SOURCE : String :=
  "U.S. Customs and Border Protection CSMS (GovDelivery RSS)"

/-- `FEEDS["eu_commission"]`. -/
def EU_URL : String := "https://ec.europa.eu/commission/presscorner/api/rss?language=en"

/-- `FEEDS["eu_commission"]["source"]`. -/
def EU_SOURCE : String := "European Commission Press Corner RSS"

/-- `FEEDS["uk_dbt"]`. -/
def UK_URL : String :=
  "https://www.gov.uk/search/news-and-communications.atom?keywords=tariff%20duty%20trade&organisations%5B%5D=department-for-business-and-trade"

/-- `FEEDS["uk_dbt"]["source"]`. -/
def UK_SOURCE : String := "UK GOV.UK DBT news Atom feed"

/-- `FEEDS["china_mofcom"]`. -/
def CHINA_URL : String := "https://english.mofcom.gov.cn/"

/-- `FEEDS["china_mofcom"]["source"]`. -/
def CHINA_SOURCE : String := "MOFCOM English website"

/-- `FEEDS["canada_finance"]`. -/
def CANADA_URL : String :=
  "https://www.canada.ca/en/department-finance/programs/international-trade-finance-policy/canadas-response-us-tariffs.html"

/-- `FEEDS["canada_finance"]["source"]`. -/
def CANADA_SOURCE : String := "Government of Canada Department of Finance"

/-- One entry of the Federal Register API `results` list; `doc.get(k)`
yields `none` for an absent key. -/
structure FRDoc where
  document_number : Option String
  publication_date : Option String
  title : Option String
  abstract : Option String
  type : Option String
  html_url : Option String
  raw_text_url : Option String

/-- The merged item dict built for one Federal Register document. -/
structure FRItem where
  document_number : String
  publication_date : Option String
  title : String
  type : Option String
  html_url : Option String
  raw_text_url : Option String
  term_hit : String
deriving DecidableEq

/-- `doc_num = doc.get("document_number") or ""`. -/
def frDocNum (doc : FRDoc) : String :=
  doc.document_number.getD ""

/-- `key = doc_num or (doc.get("html_url") or "")`. -/
def frKey (doc : FRDoc) : String :=
  if frDocNum doc == "" then doc.html_url.getD "" else frDocNum doc

/-- The relevance test applied to one document: keyword match against the
normalised title and abstract joined by one space. -/
def frRelevant (doc : FRDoc) : Bool :=
  contains_keyword
    (normalize_ws (doc.title.getD "") ++ " " ++ normalize_ws (doc.abstract.getD ""))

/-- The item dict constructed for a document first seen under `term`. -/
def frMkItem (term : String) (doc : FRDoc) : FRItem :=
  { document_number := frDocNum doc
    publication_date := doc.publication_date
    title := normalize_ws (doc.title.getD "")
    type := doc.type
    html_url := doc.html_url
    raw_text_url := doc.raw_text_url
    term_hit := term }

/-- The body of the inner `for doc in payload.get("results", [])` loop:
skip keyless documents and documents without a keyword hit; insert a new
merged entry when the key is fresh.  When the key already exists the code
runs `existing.setdefault("term_hit", term)`, a no-op because `term_hit`
is always set at construction, so the merged dict is unchanged. -/
def frProcessDoc (term : String) (merged : List (String × FRItem)) (doc : FRDoc) :
    List (String × FRItem) :=
  let key := frKey doc
  if key == "" then merged
  else if !frRelevant doc then merged
  else
    match merged.lookup key with
    | some _ => merged
    | none => merged ++ [(key, frMkItem term doc)]

/-- The body of the outer `for term in terms` loop: on success fold the
returned documents into the merged dict; on a raised exception append the
`term=...:` error string. -/
def frProcessTerm (acc : List (String × FRItem) × List String)
    (tq : String × Except String (List FRDoc)) :
    List (String × FRItem) × List String :=
  match tq.2 with
  | .ok docs => (docs.foldl (frProcessDoc tq.1) acc.1, acc.2)
  | .error e => (acc.1, acc.2 ++ ["term=" ++ tq.1 ++ ": " ++ e])

/-- The merged dict (insertion-ordered, as a Python dict) and error list
after processing a sequence of per-term query outcomes. -/
def frMergedOf (qs : List (String × Except String (List FRDoc))) :
    List (String × FRItem) × List String :=
  qs.foldl frProcessTerm ([], [])

/-- The sort key `(x.get("publication_date") or "", x.get("document_number") or "")`
as character lists. -/
def frSortKeyL (x : FRItem) : List Char × List Char :=
  ((x.publication_date.getD "").data, x.document_number.data)

/-- The comparator realising `sorted(..., key=..., reverse=True)`:
`a` precedes `b` when the key of `a` is lexicographically at least the key of `b`. -/
def frLe (a b : FRItem) : Bool :=
  pairLeL (frSortKeyL b) (frSortKeyL a)

/-- `fetch_federal_register()`, parameterised by the outcome of
`fetch_text` plus `json.loads` for each query term. -/
def fetch_federal_register (resp : String → Except String (List FRDoc)) :
    FetchResult FRItem :=
  let st := frMergedOf (FR_TERMS.map (fun t => (t, resp t)))
  { source := FR_SOURCE
    source_url := FR_BASE
    items := ((st.1.map Prod.snd).mergeSort frLe).take 80
    errors := st.2 }

/-- The CBP relevance test: title and description. -/
def rssFilterCbp (i : RssItem) : Bool :=
  contains_keyword (i.title ++ " " ++ i.description)

/-- `fetch_cbp_csms()`, parameterised by the outcome of `fetch_text` plus
`ET.fromstring` (both raise into the same `try`). -/
def fetch_cbp_csms (fetched : Except String Xml) : FetchResult RssItem :=
  match fetched with
  | .error e => { source := CBP_SOURCE, source_url := CBP_URL, items := [], errors := [e] }
  | .ok root =>
    let items := parse_rss_items root
    let filtered := items.filter rssFilterCbp
    { source := CBP_SOURCE, source_url := CBP_URL, items := filtered.take 40, errors := [] }

/-- The EU relevance test: title, description and category. -/
def rssFilterEu (i : RssItem) : Bool :=
  contains_keyword (i.title ++ " " ++ i.description ++ " " ++ i.category)

/-- `fetch_eu_feed()`: as CBP, but with the continuity fallback
`(filtered if filtered else items)[:25]`. -/
def fetch_eu_feed (fetched : Except String Xml) : FetchResult RssItem :=
  match fetched with
  | .error e => { source := EU_SOURCE, source_url := EU_URL, items := [], errors := [e] }
  | .ok root =>
    let items := parse_rss_items root
    let filtered := items.filter rssFilterEu
    { source := EU_SOURCE
      source_url := EU_URL
      items := (if filtered.isEmpty then items else filtered).take 25
      errors := [] }

/-- The UK relevance test: title and summary. -/
def atomFilterUk (i : AtomEntry) : Bool :=
  contains_keyword (i.title ++ " " ++ i.summary)

/-- `fetch_uk_feed()`: Atom parsing, strict filtering, cap 25. -/
def fetch_uk_feed (fetched : Except String Xml) : FetchResult AtomEntry :=
  match fetched with
  | .error e => { source := UK_SOURCE, source_url := UK_URL, items := [], errors := [e] }
  | .ok root =>
    let items := parse_atom_entries root
    let filtered := items.filter atomFilterUk
    { source := UK_SOURCE, source_url := UK_URL, items := filtered.take 25, errors := [] }

/-- An item dict of the HTML-scraped sources (`{title, link, pub_date,
description}`). -/
structure PageItem where
  title : String
  link : String
  pub_date : String
  description : String
deriving DecidableEq

/-- `full = href if href.startswith("http") else f"https://english.mofcom.gov.cn{href}"`. -/
def mofcomFull (href : String) : String :=
  if "http".data.isPrefixOf href.data then href else "https://english.mofcom.gov.cn" ++ href

/-- `re.search(r"/art/(\d{4})/", full)`: the four digits of the first
occurrence of `/art/` followed by four ASCII digits and a slash. -/
def mofcomYearAux : List Char → Option (List Char)
  | [] => none
  | l@(_ :: t) =>
    let after := l.drop 5
    let ds := after.take 4
    if "/art/".data.isPrefixOf l && ds.length == 4 && ds.all Char.isDigit &&
        ((after.drop 4).head? == some '/') then some ds
    else mofcomYearAux t

/-- The derived `pub_date` year of a MOFCOM link, or the empty string. -/
def mofcomYear (full : String) : String :=
  match mofcomYearAux full.data with
  | some ds => ⟨ds⟩
  | none => ""

/-- The row built from one anchor match `(href, title)`. -/
def mofcomRow (m : String × String) : PageItem :=
  let full := mofcomFull m.1
  { title := normalize_ws ⟨unescapeL m.2.data⟩
    link := full
    pub_date := mofcomYear full
    description := "MOFCOM spokesperson remarks entry" }

/-- The `rows` loop of `fetch_china_mofcom`: build a row per anchor match,
skipping links already seen (the `seen` set), in match order. -/
def mofcomRows (ms : List (String × String)) : List PageItem :=
  (ms.foldl
    (fun acc m =>
      let full := mofcomFull m.1
      if acc.1.contains full then acc
      else (acc.1 ++ [full], acc.2 ++ [mofcomRow m]))
    (([] : List String), ([] : List PageItem))).2

/-- The MOFCOM relevance test: keyword hit on the title, or the literal
`spokesperson` in the lower-cased title. -/
def mofcomRelevant (r : PageItem) : Bool :=
  contains_keyword r.title || containsSub "spokesperson".data (lowerL r.title.data)

/-- The placeholder item synthesised when the MOFCOM pull fails. -/
def CHINA_PLACEHOLDER : PageItem :=
  { title := "MOFCOM English feed temporarily unavailable; check source directly."
    link := CHINA_URL
    pub_date := ""
    description := "Automated pull failed in this run. Open source URL for latest postings." }

/-- `fetch_china_mofcom()`, parameterised by the outcome of `fetch_text`
together with the `re.findall` anchor matches (the regex itself cannot
raise); on failure the placeholder item replaces the empty item list. -/
def fetch_china_mofcom (fetched : Except String (List (String × String))) :
    FetchResult PageItem :=
  match fetched with
  | .error e =>
    { source := CHINA_SOURCE, source_url := CHINA_URL
      items := [CHINA_PLACEHOLDER], errors := [e] }
  | .ok ms =>
    let rows := mofcomRows ms
    let filtered := rows.filter mofcomRelevant
    { source := CHINA_SOURCE
      source_url := CHINA_URL
      items := (if filtered.isEmpty then rows else filtered).take 25
      errors := [] }

/-- An apostrophe, kept out of string literals. -/
def APOS : String := ⟨[Char.ofNat 39]⟩

/-- A double quote character. -/
def QUOTE : Char := Char.ofNat 34

/-- The literal marker strings scanned for on the Canada policy page. -/
def CANADA_MARKERS : List String :=
  ["Countermeasures in response to U.S. tariffs",
   "counter tariffs on steel, aluminum and automobiles remain",
   "removed counter tariffs",
   "25 per cent tariffs"]

/-- Python `str.find` on character lists: index of the first occurrence of
`needle`, or `none` (Python returns `-1`). -/
def firstIndexOfSub (needle : List Char) : List Char → Option Nat
  | [] => if needle.isEmpty then some 0 else none
  | l@(_ :: t) =>
    if needle.isPrefixOf l then some 0 else (firstIndexOfSub needle t).map (· + 1)

/-- The snippet windows `text[max(0, idx - 120) : idx + 260]` collected for
markers found in the lower-cased page text. -/
def canadaSnippets (text : String) : List String :=
  CANADA_MARKERS.filterMap (fun marker =>
    match firstIndexOfSub (lowerL marker.data) (lowerL text.data) with
    | none => none
    | some idx =>
      let a := idx - 120
      some ⟨(text.data.drop a).take (idx + 260 - a)⟩)

/-- The capture of `([^"]+)"` starting right after `content="`: the
maximal nonempty run of non-quote characters, valid only when a closing
quote follows. -/
def contentCaptureAt (l : List Char) : Option (List Char) :=
  let cap := l.takeWhile (fun c => !(c == QUOTE))
  if cap.isEmpty then none
  else if (l.drop cap.length).head? == some QUOTE then some cap else none

/-- The greedy `[^>]*content="([^"]+)"` tail of the `dcterms.modified`
meta regex: within the run of non-`>` characters, the engine backtracks
from the right, so the last viable `content="` wins. -/
def contentSearch : List Char → Option (List Char)
  | [] => none
  | l@(c :: t) =>
    if c == '>' then none
    else
      match contentSearch t with
      | some cap => some cap
      | none =>
        if ("content=".data ++ [QUOTE]).isPrefixOf l then contentCaptureAt (l.drop 9)
        else none

/-- The `re.search` of the `dcterms.modified` meta pattern (IGNORECASE):
first position whose opening literal matches and whose tail admits a
capture. -/
def dctermsSearch : List Char → Option (List Char)
  | [] => none
  | l@(_ :: t) =>
    if ciPrefix ("<meta name=".data ++ [QUOTE] ++ "dcterms.modified".data ++ [QUOTE]) l then
      match contentSearch (l.drop 29) with
      | some cap => some cap
      | none => dctermsSearch t
    else dctermsSearch t

/-- The `dcterms.modified` value scraped from the Canada page, if any. -/
def canadaModified (html : String) : Option String :=
  (dctermsSearch html.data).map (fun cap => ⟨cap⟩)

/-- The Canada fetch result; it additionally records `dcterms_modified`. -/
structure CanadaResult where
  source : String
  source_url : String
  items : List PageItem
  errors : List String
  dcterms_modified : Option String

/-- `fetch_canada_page()`, parameterised by the outcome of `fetch_text`:
on success one summary item built from marker snippets of the
tag-stripped page. -/
def fetch_canada_page (fetched : Except String String) : CanadaResult :=
  match fetched with
  | .error e =>
    { source := CANADA_SOURCE, source_url := CANADA_URL, items := [],
      errors := [e], dcterms_modified := none }
  | .ok html =>
    let md := canadaModified html
    let text := strip_tags html
    let snippets := canadaSnippets text
    let summary :=
      if snippets.isEmpty then
        "Official policy page for Canada" ++ APOS ++ "s tariff response."
      else ⟨(normalize_ws (String.intercalate " | " snippets)).data.take 900⟩
    { source := CANADA_SOURCE
      source_url := CANADA_URL
      items := [{ title := "Canada" ++ APOS ++ "s response to U.S. tariffs (policy page)",
                  link := CANADA_URL, pub_date := md.getD "", description := summary }]
      errors := []
      dcterms_modified := md }

/-- The `about` block of the snapshot. -/
structure About where
  description : String
  keyword_filter : List String

/-- The `feeds.retaliation` sub-mapping. -/
structure Retaliation where
  eu_commission : FetchResult RssItem
  uk_dbt : FetchResult AtomEntry
  china_mofcom : FetchResult PageItem
  canada_finance : CanadaResult

/-- The `feeds` mapping. -/
structure Feeds where
  federal_register : FetchResult FRItem
  cbp_csms : FetchResult RssItem
  retaliation : Retaliation

/-- The root snapshot payload. -/
structure Payload where
  generated_at : String
  about : About
  feeds : Feeds

/-- `build_payload()`: assemble the snapshot from the six fetchers.
`now_utc_iso()` reads the clock, so the timestamp is a parameter; each
effectful step of each fetcher is a parameter as above. -/
def build_payload (now : String) (frResp : String → Except String (List FRDoc))
    (cbpFetched euFetched ukFetched : Except String Xml)
    (chinaFetched : Except String (List (String × String)))
    (canadaFetched : Except String String) : Payload :=
  { generated_at := now
    about :=
      { description := "Automated live intelligence pull from official government/legal sources."
        keyword_filter := KEYWORDS }
    feeds :=
      { federal_register := fetch_federal_register frResp
        cbp_csms := fetch_cbp_csms cbpFetched
        retaliation :=
          { eu_commission := fetch_eu_feed euFetched
            uk_dbt := fetch_uk_feed ukFetched
            china_mofcom := fetch_china_mofcom chinaFetched
            canada_finance := fetch_canada_page canadaFetched } } }

/-- A concrete Federal Register document with identity key `X`, as in the
specified two-query merge example. -/
def exDoc : FRDoc :=
  { document_number := some "X"
    publication_date := some "2025-02-03"
    title := some "Tariff adjustment notice"
    abstract := some "Adjusts duty rates."
    type := some "Notice"
    html_url := some "https://www.federalregister.gov/d/X"
    raw_text_url := none }

/-- A concrete RSS tree whose single item misses every keyword. -/
def exRssNoMatch : Xml :=
  .elem "rss" [] none
    [.elem "channel" [] none
      [.elem "item" [] none [.elem "title" [] (some "hello") []]]]

/-- A concrete RSS tree whose single item hits a keyword. -/
def exRssMatch : Xml :=
  .elem "rss" [] none
    [.elem "channel" [] none
      [.elem "item" [] none [.elem "title" [] (some "Tariff news") []]]]

/-- A concrete Atom tree whose single entry misses every keyword. -/
def exAtomNoMatch : Xml :=
  .elem "feed" [] none
    [.elem (atomTag "entry") [] none
      [.elem (atomTag "title") [] (some "hello") [],
       .elem (atomTag "link") [("href", "u")] none []]]

/-- A concrete Atom tree whose single entry hits a keyword. -/
def exAtomMatch : Xml :=
  .elem "feed" [] none
    [.elem (atomTag "entry") [] none
      [.elem (atomTag "title") [] (some "Duty update") [],
       .elem (atomTag "link") [("href", "u")] none []]]

/-- Concrete MOFCOM anchor matches whose titles miss the keywords and the
`spokesperson` literal. -/
def exMsNoMatch : List (String × String) :=
  [("/News/SpokesmansRemarks/art/2024/a.html", "hello")]

/-- Concrete MOFCOM anchor matches whose title hits a keyword. -/
def exMsMatch : List (String × String) :=
  [("/News/SpokesmansRemarks/art/2024/a.html", "Tariff remarks")]

/-- A concrete XML root with no `channel` child. -/
def exNoChannel : Xml :=
  .elem "rss" [] none [.elem "other" [] none []]

/-- A concrete XML root whose `channel` has no `item` children. -/
def exEmptyChannel : Xml :=
  .elem "rss" [] none [.elem "channel" [] none [.elem "other" [] none []]]

/-- A 705-character description: 699 `a`s, one space, five `b`s.  Its
tag-stripped normalisation is itself, and the 700-character truncation
cuts directly after the space. -/
def exLongDescr : String :=
  ⟨List.replicate 699 'a' ++ ' ' :: List.replicate 5 'b'⟩

/-- A concrete RSS tree whose single item carries `exLongDescr` as its
description. -/
def exLongRss : Xml :=
  .elem "rss" [] none
    [.elem "channel" [] none
      [.elem "item" [] none [.elem "description" [] (some exLongDescr) []]]]

/-- The item parsed from `exRssMatch`. -/
def exRssItem : RssItem :=
  { title := "Tariff news", link := "", pub_date := "", guid := "",
    category := "", description := "" }

/-- The entry parsed from `exAtomMatch`. -/
def exAtomEntry : AtomEntry :=
  { title := "Duty update", link := "u", updated := "", summary := "" }

/-! ## Properties of the whitespace normaliser -/

theorem collapseWs_cons_of_not_space {c : Char} (h : pySpace c = false) (l : List Char) :
    collapseWs (c :: l) = c :: collapseWs l := by
  cases l with
  | nil => simp [collapseWs, h]
  | cons d t => simp [collapseWs, h]

theorem collapseWs_space_space {c₁ c₂ : Char} (h₁ : pySpace c₁ = true)
    (h₂ : pySpace c₂ = true) (rest : List Char) :
    collapseWs (c₁ :: c₂ :: rest) = collapseWs (c₂ :: rest) := by
  simp [collapseWs, h₁, h₂]

theorem collapseWs_space_not_space {c₁ c₂ : Char} (h₁ : pySpace c₁ = true)
    (h₂ : pySpace c₂ = false) (rest : List Char) :
    collapseWs (c₁ :: c₂ :: rest) = ' ' :: collapseWs (c₂ :: rest) := by
  simp [collapseWs, h₁, h₂]

theorem collapseWs_eq_self {l : List Char} (h₁ : noAdjWs l = true) (h₂ : wsIsSpace l = true) :
    collapseWs l = l := by
  induction l using collapseWs.induct with
  | case1 => rfl
  | case2 c hc =>
    have hsp : c = ' ' := by
      have := List.all_eq_true.mp h₂ c (by simp)
      simp [hc] at this
      exact this
    simp [collapseWs, hc, hsp]
  | case3 c hc => simp [collapseWs, hc]
  | case4 c₁ c₂ rest hc₁ hc₂ ih =>
    exfalso
    simp [noAdjWs, hc₁, hc₂] at h₁
  | case5 c₁ c₂ rest hc₁ hc₂ ih =>
    have hsp : c₁ = ' ' := by
      have := List.all_eq_true.mp h₂ c₁ (by simp)
      simp [hc₁] at this
      exact this
    have h₁' : noAdjWs (c₂ :: rest) = true := by
      simp [noAdjWs] at h₁
      exact h₁.2
    have h₂' : wsIsSpace (c₂ :: rest) = true := by
      simp [wsIsSpace, List.all_cons] at h₂ ⊢
      exact h₂.2
    rw [collapseWs_space_not_space hc₁ (eq_false_of_ne_true hc₂), ih h₁' h₂', hsp]
  | case6 c₁ c₂ rest hc₁ ih =>
    have h₁' : noAdjWs (c₂ :: rest) = true := by
      simp [noAdjWs] at h₁
      exact h₁.2
    have h₂' : wsIsSpace (c₂ :: rest) = true := by
      simp [wsIsSpace, List.all_cons] at h₂ ⊢
      exact h₂.2
    rw [collapseWs_cons_of_not_space (eq_false_of_ne_true hc₁), ih h₁' h₂']

theorem collapseWs_noAdjWs (l : List Char) : noAdjWs (collapseWs l) = true := by
  induction l using collapseWs.induct with
  | case1 => rfl
  | case2 c hc => simp [collapseWs, hc, noAdjWs]
  | case3 c hc => simp [collapseWs, hc, noAdjWs]
  | case4 c₁ c₂ rest hc₁ hc₂ ih =>
    rw [collapseWs_space_space hc₁ hc₂]
    exact ih
  | case5 c₁ c₂ rest hc₁ hc₂ ih =>
    have hc₂' : pySpace c₂ = false := eq_false_of_ne_true hc₂
    rw [collapseWs_cons_of_not_space hc₂'] at ih
    rw [collapseWs_space_not_space hc₁ hc₂', collapseWs_cons_of_not_space hc₂']
    simp only [noAdjWs, hc₂', Bool.and_false, Bool.not_false, Bool.true_and] at ih ⊢
    exact ih
  | case6 c₁ c₂ rest hc₁ ih =>
    have hc₁' : pySpace c₁ = false := eq_false_of_ne_true hc₁
    rw [collapseWs_cons_of_not_space hc₁']
    cases hX : collapseWs (c₂ :: rest) with
    | nil => simp [noAdjWs]
    | cons d t =>
      rw [hX] at ih
      simp [noAdjWs, hc₁']
      simpa [noAdjWs] using ih

theorem collapseWs_wsIsSpace (l : List Char) : wsIsSpace (collapseWs l) = true := by
  induction l using collapseWs.induct with
  | case1 => rfl
  | case2 c hc => simp [collapseWs, hc, wsIsSpace]
  | case3 c hc => simp [collapseWs, hc, wsIsSpace, List.all_cons]
  | case4 c₁ c₂ rest hc₁ hc₂ ih =>
    rw [collapseWs_space_space hc₁ hc₂]
    exact ih
  | case5 c₁ c₂ rest hc₁ hc₂ ih =>
    have hc₂' : pySpace c₂ = false := eq_false_of_ne_true hc₂
    rw [collapseWs_space_not_space hc₁ hc₂']
    simp [wsIsSpace, List.all_cons] at ih ⊢
    exact ih
  | case6 c₁ c₂ rest hc₁ ih =>
    have hc₁' : pySpace c₁ = false := eq_false_of_ne_true hc₁
    rw [collapseWs_cons_of_not_space hc₁']
    simp [wsIsSpace, List.all_cons, hc₁'] at ih ⊢
    exact ih

theorem collapseWs_ne_nil {l : List Char} (h : l ≠ []) : collapseWs l ≠ [] := by
  induction l using collapseWs.induct with
  | case1 => exact absurd rfl h
  | case2 c hc => simp [collapseWs, hc]
  | case3 c hc => simp [collapseWs, hc]
  | case4 c₁ c₂ rest hc₁ hc₂ ih =>
    rw [collapseWs_space_space hc₁ hc₂]
    exact ih (by simp)
  | case5 c₁ c₂ rest hc₁ hc₂ ih =>
    rw [collapseWs_space_not_space hc₁ (eq_false_of_ne_true hc₂)]
    simp
  | case6 c₁ c₂ rest hc₁ ih =>
    rw [collapseWs_cons_of_not_space (eq_false_of_ne_true hc₁)]
    simp

theorem collapseWs_getLast? {l : List Char} {c : Char} (h : l.getLast? = some c)
    (hc : pySpace c = false) : (collapseWs l).getLast? = some c := by
  induction l using collapseWs.induct with
  | case1 => simp at h
  | case2 d hd =>
    simp at h
    subst h
    exact absurd hd (by simp [hc])
  | case3 d hd =>
    simp at h
    subst h
    simp [collapseWs, hd]
  | case4 c₁ c₂ rest hc₁ hc₂ ih =>
    rw [List.getLast?_cons_cons] at h
    rw [collapseWs_space_space hc₁ hc₂]
    exact ih h
  | case5 c₁ c₂ rest hc₁ hc₂ ih =>
    rw [List.getLast?_cons_cons] at h
    have hc₂' : pySpace c₂ = false := eq_false_of_ne_true hc₂
    rw [collapseWs_space_not_space hc₁ hc₂', collapseWs_cons_of_not_space hc₂',
      List.getLast?_cons_cons]
    have := ih h
    rwa [collapseWs_cons_of_not_space hc₂'] at this
  | case6 c₁ c₂ rest hc₁ ih =>
    rw [List.getLast?_cons_cons] at h
    rw [collapseWs_cons_of_not_space (eq_false_of_ne_true hc₁)]
    have hne : collapseWs (c₂ :: rest) ≠ [] := collapseWs_ne_nil (by simp)
    obtain ⟨d, t, hX⟩ : ∃ d t, collapseWs (c₂ :: rest) = d :: t := by
      cases hX : collapseWs (c₂ :: rest) with
      | nil => exact absurd hX hne
      | cons d t => exact ⟨d, t, rfl⟩
    rw [hX, List.getLast?_cons_cons]
    have := ih h
    rwa [hX] at this

theorem prefix_head? {t m : List Char} {c : Char} (hp : t <+: m) (h : t.head? = some c) :
    m.head? = some c := by
  obtain ⟨s, rfl⟩ := hp
  cases t with
  | nil => simp at h
  | cons d u => simpa using h

theorem dropWhile_head?_not {p : Char → Bool} {l : List Char} {c : Char}
    (h : (l.dropWhile p).head? = some c) : p c = false := by
  induction l with
  | nil => simp at h
  | cons d t ih =>
    rw [List.dropWhile_cons] at h
    by_cases hd : p d = true
    · rw [if_pos hd] at h
      exact ih h
    · rw [if_neg hd] at h
      simp at h
      subst h
      exact eq_false_of_ne_true hd

theorem dropTrailingWs_prefix (m : List Char) : dropTrailingWs m <+: m := by
  have h := List.dropWhile_suffix (l := m.reverse) pySpace
  have := List.reverse_prefix.mpr h
  simpa using this

theorem stripWs_head? {l : List Char} {c : Char} (h : (stripWs l).head? = some c) :
    pySpace c = false := by
  have hp : stripWs l <+: l.dropWhile pySpace := dropTrailingWs_prefix _
  exact dropWhile_head?_not (prefix_head? hp h)

theorem stripWs_getLast? {l : List Char} {c : Char} (h : (stripWs l).getLast? = some c) :
    pySpace c = false := by
  unfold stripWs dropTrailingWs at h
  rw [List.getLast?_reverse] at h
  exact dropWhile_head?_not h

theorem stripWs_eq_self {l : List Char} {c d : Char} (h₁ : l.head? = some c)
    (hc : pySpace c = false) (h₂ : l.getLast? = some d) (hd : pySpace d = false) :
    stripWs l = l := by
  have hdw : l.dropWhile pySpace = l := by
    cases l with
    | nil => rfl
    | cons e t =>
      simp at h₁
      subst h₁
      rw [List.dropWhile_cons, if_neg (by simp [hc])]
  unfold stripWs dropTrailingWs
  rw [hdw]
  have hrev : l.reverse.head? = some d := by rw [List.head?_reverse]; exact h₂
  have : l.reverse.dropWhile pySpace = l.reverse := by
    cases hr : l.reverse with
    | nil => rfl
    | cons e t =>
      rw [hr] at hrev
      simp at hrev
      subst hrev
      rw [List.dropWhile_cons, if_neg (by simp [hd])]
  rw [this, List.reverse_reverse]

theorem normWsL_idem (l : List Char) : normWsL (normWsL l) = normWsL l := by
  unfold normWsL
  cases hm : stripWs l with
  | nil => simp [stripWs, dropTrailingWs, collapseWs]
  | cons c t =>
    have hc : pySpace c = false := stripWs_head? (by rw [hm]; rfl)
    obtain ⟨d, hd⟩ : ∃ d, (stripWs l).getLast? = some d := by
      rw [hm]; exact ⟨(c :: t).getLast (by simp), List.getLast?_eq_getLast _ _⟩
    have hdns : pySpace d = false := stripWs_getLast? hd
    rw [hm] at hd
    have hout_head : (collapseWs (c :: t)).head? = some c := by
      rw [collapseWs_cons_of_not_space hc]; rfl
    have hout_last : (collapseWs (c :: t)).getLast? = some d :=
      collapseWs_getLast? hd hdns
    rw [stripWs_eq_self hout_head hc hout_last hdns]
    exact collapseWs_eq_self (collapseWs_noAdjWs _) (collapseWs_wsIsSpace _)

/-- `normalize_ws` is idempotent. -/
theorem normalize_ws_idem (s : String) : normalize_ws (normalize_ws s) = normalize_ws s := by
  show (⟨normWsL (normWsL s.data)⟩ : String) = ⟨normWsL s.data⟩
  rw [normWsL_idem]

/-- Strings of the form `⟨normWsL l⟩` are fixed points of `normalize_ws`. -/
theorem normalize_ws_mk_normWsL (l : List Char) :
    normalize_ws ⟨normWsL l⟩ = ⟨normWsL l⟩ := by
  show (⟨normWsL (normWsL l)⟩ : String) = _
  rw [normWsL_idem]

/-- The output of `strip_tags` is a fixed point of `normalize_ws`. -/
theorem strip_tags_normalized (h : String) :
    normalize_ws (strip_tags h) = strip_tags h :=
  normalize_ws_mk_normWsL _
theorem char_eq_of_toNat_eq {a b : Char} (h : a.toNat = b.toNat) : a = b :=
  Char.eq_of_val_eq (UInt32.eq_of_val_eq (Fin.ext h))

theorem strLeL_refl (x : List Char) : strLeL x x = true := by
  induction x with
  | nil => rfl
  | cons a as ih => simp [strLeL, ih]

theorem strLeL_total (x : List Char) : ∀ y, (strLeL x y || strLeL y x) = true := by
  induction x with
  | nil => intro y; simp [strLeL]
  | cons a as ih =>
    intro y
    cases y with
    | nil => simp [strLeL]
    | cons b bs =>
      simp only [strLeL]
      rcases Nat.lt_trichotomy a.toNat b.toNat with h | h | h
      · simp [h]
      · simpa [h, Nat.lt_irrefl] using ih bs
      · simp [h, Nat.lt_asymm h]

theorem strLeL_trans (x : List Char) :
    ∀ y z, strLeL x y = true → strLeL y z = true → strLeL x z = true := by
  induction x with
  | nil => intro y z h1 h2; simp [strLeL]
  | cons a as ih =>
    intro y z h1 h2
    cases y with
    | nil => simp [strLeL] at h1
    | cons b bs =>
      cases z with
      | nil => simp [strLeL] at h2
      | cons c cs =>
        simp only [strLeL] at h1 h2 ⊢
        rcases Nat.lt_trichotomy a.toNat b.toNat with hab | hab | hab
        · rcases Nat.lt_trichotomy b.toNat c.toNat with hbc | hbc | hbc
          · simp [Nat.lt_trans hab hbc]
          · simp [hbc ▸ hab]
          · simp [Nat.lt_asymm hbc, hbc] at h2
        · rcases Nat.lt_trichotomy b.toNat c.toNat with hbc | hbc | hbc
          · simp [hab ▸ hbc]
          · have h3 : ¬ a.toNat < c.toNat := by omega
            have h4 : ¬ c.toNat < a.toNat := by omega
            simp [h3, h4]
            simp [Nat.lt_irrefl, hab] at h1
            simp [Nat.lt_irrefl, hbc] at h2
            exact ih bs cs h1 h2
          · simp [Nat.lt_asymm hbc, hbc] at h2
        · simp [Nat.lt_asymm hab, hab] at h1

theorem strLeL_antisymm (x : List Char) :
    ∀ y, strLeL x y = true → strLeL y x = true → x = y := by
  induction x with
  | nil =>
    intro y h1 h2
    cases y with
    | nil => rfl
    | cons b bs => simp [strLeL] at h2
  | cons a as ih =>
    intro y h1 h2
    cases y with
    | nil => simp [strLeL] at h1
    | cons b bs =>
      simp only [strLeL] at h1 h2
      rcases Nat.lt_trichotomy a.toNat b.toNat with hab | hab | hab
      · simp [Nat.lt_asymm hab, hab] at h2
      · simp [hab, Nat.lt_irrefl] at h1 h2
        rw [char_eq_of_toNat_eq hab, ih bs h1 h2]
      · simp [Nat.lt_asymm hab, hab] at h1

theorem pairLeL_total (p q : List Char × List Char) :
    (pairLeL p q || pairLeL q p) = true := by
  unfold pairLeL
  by_cases h : p.1 = q.1
  · simp [h, strLeL_total p.2 q.2]
  · have h1 : (p.1 == q.1) = false := beq_eq_false_iff_ne.mpr h
    have h2 : (q.1 == p.1) = false := beq_eq_false_iff_ne.mpr (Ne.symm h)
    simp [h1, h2, strLeL_total p.1 q.1]

theorem pairLeL_trans (p q r : List Char × List Char) (h1 : pairLeL p q = true)
    (h2 : pairLeL q r = true) : pairLeL p r = true := by
  unfold pairLeL at h1 h2 ⊢
  by_cases hpq : p.1 = q.1 <;> by_cases hqr : q.1 = r.1
  · simp [hpq, hqr] at h1 h2 ⊢
    exact strLeL_trans _ _ _ h1 h2
  · have hpr : p.1 ≠ r.1 := hpq ▸ hqr
    simp [beq_eq_false_iff_ne.mpr hqr, beq_eq_false_iff_ne.mpr hpr] at h2 ⊢
    rw [hpq]
    exact h2
  · have hpr : p.1 ≠ r.1 := fun h => hpq (h.trans hqr.symm)
    simp [beq_eq_false_iff_ne.mpr hpq, beq_eq_false_iff_ne.mpr hpr, hqr] at h1 ⊢
    exact h1
  · simp [beq_eq_false_iff_ne.mpr hpq, beq_eq_false_iff_ne.mpr hqr] at h1 h2
    by_cases hpr : p.1 = r.1
    · exfalso
      rw [hpr] at h1
      exact hqr (strLeL_antisymm _ _ h2 h1)
    · simp [beq_eq_false_iff_ne.mpr hpr]
      exact strLeL_trans _ _ _ h1 h2

/-- The descending-key comparator is total. -/
theorem frLe_total (a b : FRItem) : (frLe a b || frLe b a) = true := by
  unfold frLe
  exact pairLeL_total (frSortKeyL b) (frSortKeyL a)

/-- The descending-key comparator is transitive. -/
theorem frLe_trans (a b c : FRItem) (h1 : frLe a b = true) (h2 : frLe b c = true) :
    frLe a c = true := by
  unfold frLe at h1 h2 ⊢
  exact pairLeL_trans _ _ _ h2 h1

/-! ## Properties of the multi-query merge -/

/-- A binding present in an association list survives appending. -/
theorem lookup_append_left {k : String} {v : FRItem} :
    ∀ {l₁ : List (String × FRItem)} (l₂ : List (String × FRItem)),
      l₁.lookup k = some v → (l₁ ++ l₂).lookup k = some v := by
  intro l₁
  induction l₁ with
  | nil => intro l₂ h; simp [List.lookup] at h
  | cons p t ih =>
    intro l₂ h
    cases p with
    | mk a b =>
      rw [List.lookup_cons] at h
      rw [List.cons_append, List.lookup_cons]
      cases hk : (k == a) with
      | true => rw [hk] at h; exact h
      | false => rw [hk] at h; exact ih l₂ h

/-- Appending a fresh binding makes it visible. -/
theorem lookup_append_fresh {k : String} (v : FRItem) :
    ∀ {l : List (String × FRItem)}, l.lookup k = none →
      (l ++ [(k, v)]).lookup k = some v := by
  intro l
  induction l with
  | nil => intro _; simp [List.lookup]
  | cons p t ih =>
    intro h
    cases p with
    | mk a b =>
      rw [List.lookup_cons] at h
      rw [List.cons_append, List.lookup_cons]
      cases hk : (k == a) with
      | true => rw [hk] at h; exact absurd h (by simp)
      | false => rw [hk] at h; exact ih h

/-- Processing a further document never changes an existing binding of the
merged dict. -/
theorem frProcessDoc_preserves {t : String} {merged : List (String × FRItem)}
    {d : FRDoc} {k : String} {v : FRItem} (h : merged.lookup k = some v) :
    (frProcessDoc t merged d).lookup k = some v := by
  simp only [frProcessDoc]
  split
  · exact h
  · split
    · exact h
    · split
      · exact h
      · exact lookup_append_left _ h

/-- A fresh, keyed, relevant document is inserted with the fields of
`frMkItem t d` (in particular `term_hit = t`). -/
theorem frProcessDoc_inserts {t : String} {merged : List (String × FRItem)}
    {d : FRDoc} (h : merged.lookup (frKey d) = none) (hk : frKey d ≠ "")
    (hr : frRelevant d = true) :
    (frProcessDoc t merged d).lookup (frKey d) = some (frMkItem t d) := by
  have h0 : (frKey d == "") = false := beq_eq_false_iff_ne.mpr hk
  simp only [frProcessDoc, h0, hr, Bool.not_true, Bool.false_eq_true, if_false, h]
  exact lookup_append_fresh _ h

/-- Folding a document list preserves existing bindings. -/
theorem foldl_docs_preserves (t : String) (docs : List FRDoc) :
    ∀ (merged : List (String × FRItem)) (k : String) (v : FRItem),
      merged.lookup k = some v →
        (docs.foldl (frProcessDoc t) merged).lookup k = some v := by
  induction docs with
  | nil => intro merged k v h; exact h
  | cons d ds ih =>
    intro merged k v h
    exact ih _ _ _ (frProcessDoc_preserves h)

/-- Processing a further query preserves existing bindings. -/
theorem frProcessTerm_preserves (tq : String × Except String (List FRDoc))
    (acc : List (String × FRItem) × List String) (k : String) (v : FRItem)
    (h : acc.1.lookup k = some v) : (frProcessTerm acc tq).1.lookup k = some v := by
  unfold frProcessTerm
  cases tq.2 with
  | ok docs => exact foldl_docs_preserves _ _ _ _ _ h
  | error e => exact h

/-- Folding further queries preserves existing bindings. -/
theorem foldl_terms_preserves (qs : List (String × Except String (List FRDoc))) :
    ∀ (acc : List (String × FRItem) × List String) (k : String) (v : FRItem),
      acc.1.lookup k = some v → ((qs.foldl frProcessTerm acc).1).lookup k = some v := by
  induction qs with
  | nil => intro acc k v h; exact h
  | cons q qt ih =>
    intro acc k v h
    exact ih _ _ _ (frProcessTerm_preserves _ _ _ _ h)

/-! ## Claims -/

/-- C1: in the multi-query federal_register merge, the first query in which
an identity key occurs fixes every field of the merged item, including
`term_hit` set to the term of that query; processing further documents or later
queries never changes an existing binding. -/
theorem C1_merge_first_query_wins :
    (∀ (t : String) (merged : List (String × FRItem)) (d : FRDoc) (k : String) (v : FRItem),
        merged.lookup k = some v → (frProcessDoc t merged d).lookup k = some v)
    ∧ (∀ (t : String) (merged : List (String × FRItem)) (d : FRDoc),
        merged.lookup (frKey d) = none → frKey d ≠ "" → frRelevant d = true →
          (frProcessDoc t merged d).lookup (frKey d) = some (frMkItem t d)
            ∧ (frMkItem t d).term_hit = t)
    ∧ (∀ (qs rest : List (String × Except String (List FRDoc))) (k : String) (v : FRItem),
        (frMergedOf qs).1.lookup k = some v →
          (frMergedOf (qs ++ rest)).1.lookup k = some v) := by
  refine ⟨fun t merged d k v h => frProcessDoc_preserves h,
    fun t merged d h hk hr => ⟨frProcessDoc_inserts h hk hr, rfl⟩,
    fun qs rest k v h => ?_⟩
  unfold frMergedOf
  rw [List.foldl_append]
  exact foldl_terms_preserves rest _ k v h

/-- Witness for C1: the specified example — query `tariff` and query `duty`
both return the document with key `X`; the merged item keeps `term_hit =
"tariff"`. -/
theorem C1_witness :
    (frMergedOf ([("tariff", Except.ok [exDoc])] ++ [("duty", Except.ok [exDoc])])).1.lookup "X"
        = some (frMkItem "tariff" exDoc)
      ∧ (frMkItem "tariff" exDoc).term_hit = "tariff" :=
  ⟨C1_merge_first_query_wins.2.2 [("tariff", Except.ok [exDoc])]
      [("duty", Except.ok [exDoc])] "X" (frMkItem "tariff" exDoc) (by decide),
    (C1_merge_first_query_wins.2.1 "tariff" [] exDoc (by decide) (by decide) (by decide)).2⟩

/-- C2: for the fallback-configured sources (eu_commission, china_mofcom),
zero relevance matches yield the first min(N, 25) unfiltered candidates;
at least one match yields the first min(#accepted, 25) accepted items. -/
theorem C2_continuity_fallback :
    (∀ root : Xml,
      ((parse_rss_items root).filter rssFilterEu = [] →
        (fetch_eu_feed (.ok root)).items = (parse_rss_items root).take 25)
      ∧ ((parse_rss_items root).filter rssFilterEu ≠ [] →
        (fetch_eu_feed (.ok root)).items = ((parse_rss_items root).filter rssFilterEu).take 25))
    ∧ (∀ ms : List (String × String),
      ((mofcomRows ms).filter mofcomRelevant = [] →
        (fetch_china_mofcom (.ok ms)).items = (mofcomRows ms).take 25)
      ∧ ((mofcomRows ms).filter mofcomRelevant ≠ [] →
        (fetch_china_mofcom (.ok ms)).items = ((mofcomRows ms).filter mofcomRelevant).take 25)) := by
  constructor
  · intro root
    constructor
    · intro h
      show ((if ((parse_rss_items root).filter rssFilterEu).isEmpty then parse_rss_items root
          else (parse_rss_items root).filter rssFilterEu).take 25) = (parse_rss_items root).take 25
      rw [h]
      rfl
    · intro h
      show ((if ((parse_rss_items root).filter rssFilterEu).isEmpty then parse_rss_items root
          else (parse_rss_items root).filter rssFilterEu).take 25)
        = ((parse_rss_items root).filter rssFilterEu).take 25
      cases hf : (parse_rss_items root).filter rssFilterEu with
      | nil => exact absurd hf h
      | cons a t => rfl
  · intro ms
    constructor
    · intro h
      show ((if ((mofcomRows ms).filter mofcomRelevant).isEmpty then mofcomRows ms
          else (mofcomRows ms).filter mofcomRelevant).take 25) = (mofcomRows ms).take 25
      rw [h]
      rfl
    · intro h
      show ((if ((mofcomRows ms).filter mofcomRelevant).isEmpty then mofcomRows ms
          else (mofcomRows ms).filter mofcomRelevant).take 25)
        = ((mofcomRows ms).filter mofcomRelevant).take 25
      cases hf : (mofcomRows ms).filter mofcomRelevant with
      | nil => exact absurd hf h
      | cons a t => rfl

/-- Witness for C2: both fallback branches exercised concretely for both
sources. -/
theorem C2_witness :
    ((parse_rss_items exRssNoMatch).filter rssFilterEu = []
      ∧ (fetch_eu_feed (.ok exRssNoMatch)).items = (parse_rss_items exRssNoMatch).take 25)
    ∧ ((parse_rss_items exRssMatch).filter rssFilterEu ≠ []
      ∧ (fetch_eu_feed (.ok exRssMatch)).items
          = ((parse_rss_items exRssMatch).filter rssFilterEu).take 25)
    ∧ ((mofcomRows exMsNoMatch).filter mofcomRelevant = []
      ∧ (fetch_china_mofcom (.ok exMsNoMatch)).items = (mofcomRows exMsNoMatch).take 25)
    ∧ ((mofcomRows exMsMatch).filter mofcomRelevant ≠ []
      ∧ (fetch_china_mofcom (.ok exMsMatch)).items
          = ((mofcomRows exMsMatch).filter mofcomRelevant).take 25) :=
  ⟨⟨by decide, (C2_continuity_fallback.1 exRssNoMatch).1 (by decide)⟩,
    ⟨by decide, (C2_continuity_fallback.1 exRssMatch).2 (by decide)⟩,
    ⟨by decide, (C2_continuity_fallback.2 exMsNoMatch).1 (by decide)⟩,
    ⟨by decide, (C2_continuity_fallback.2 exMsMatch).2 (by decide)⟩⟩

/-- C3: for every combination of per-source outcomes the assembled snapshot
carries `generated_at`, the `about` block and a complete FetchResult under
every feed key with the configured source labels; a total failure of any
source only populates the `errors` of that source (leaving its result present)
and never aborts assembly. -/
theorem C3_snapshot_complete (now : String) (frResp : String → Except String (List FRDoc))
    (cbpF euF ukF : Except String Xml) (chinaF : Except String (List (String × String)))
    (canF : Except String String) (p : Payload)
    (hp : p = build_payload now frResp cbpF euF ukF chinaF canF) :
    p.generated_at = now
    ∧ p.about.description
        = "Automated live intelligence pull from official government/legal sources."
    ∧ p.about.keyword_filter = KEYWORDS
    ∧ p.feeds.federal_register.source = FR_SOURCE
    ∧ p.feeds.federal_register.source_url = FR_BASE
    ∧ p.feeds.cbp_csms.source = CBP_SOURCE
    ∧ p.feeds.cbp_csms.source_url = CBP_URL
    ∧ p.feeds.retaliation.eu_commission.source = EU_SOURCE
    ∧ p.feeds.retaliation.eu_commission.source_url = EU_URL
    ∧ p.feeds.retaliation.uk_dbt.source = UK_SOURCE
    ∧ p.feeds.retaliation.uk_dbt.source_url = UK_URL
    ∧ p.feeds.retaliation.china_mofcom.source = CHINA_SOURCE
    ∧ p.feeds.retaliation.china_mofcom.source_url = CHINA_URL
    ∧ p.feeds.retaliation.canada_finance.source = CANADA_SOURCE
    ∧ p.feeds.retaliation.canada_finance.source_url = CANADA_URL
    ∧ (∀ e, cbpF = .error e →
        p.feeds.cbp_csms.errors = [e] ∧ p.feeds.cbp_csms.items = [])
    ∧ (∀ e, euF = .error e →
        p.feeds.retaliation.eu_commission.errors = [e]
          ∧ p.feeds.retaliation.eu_commission.items = [])
    ∧ (∀ e, ukF = .error e →
        p.feeds.retaliation.uk_dbt.errors = [e] ∧ p.feeds.retaliation.uk_dbt.items = [])
    ∧ (∀ e, chinaF = .error e → p.feeds.retaliation.china_mofcom.errors = [e])
    ∧ (∀ e, canF = .error e →
        p.feeds.retaliation.canada_finance.errors = [e]
          ∧ p.feeds.retaliation.canada_finance.items = [])
    ∧ ((∀ t, ∃ e, frResp t = .error e) →
        p.feeds.federal_register.errors ≠ [] ∧ p.feeds.federal_register.items = []) := by
  subst hp
  refine ⟨rfl, rfl, rfl, rfl, rfl, by cases cbpF <;> rfl, by cases cbpF <;> rfl,
    by cases euF <;> rfl, by cases euF <;> rfl, by cases ukF <;> rfl, by cases ukF <;> rfl,
    by cases chinaF <;> rfl, by cases chinaF <;> rfl, by cases canF <;> rfl,
    by cases canF <;> rfl, ?_, ?_, ?_, ?_, ?_, ?_⟩
  · intro e he; subst he; exact ⟨rfl, rfl⟩
  · intro e he; subst he; exact ⟨rfl, rfl⟩
  · intro e he; subst he; exact ⟨rfl, rfl⟩
  · intro e he; subst he; exact rfl
  · intro e he; subst he; exact ⟨rfl, rfl⟩
  · intro h
    obtain ⟨e1, h1⟩ := h "tariff"
    obtain ⟨e2, h2⟩ := h "duty"
    obtain ⟨e3, h3⟩ := h "section 232"
    obtain ⟨e4, h4⟩ := h "reciprocal tariff"
    obtain ⟨e5, h5⟩ := h "de minimis"
    constructor
    · show (fetch_federal_register frResp).errors ≠ []
      simp [fetch_federal_register, frMergedOf, FR_TERMS, frProcessTerm, h1, h2, h3, h4, h5]
    · show (fetch_federal_register frResp).items = []
      simp [fetch_federal_register, frMergedOf, FR_TERMS, frProcessTerm, h1, h2, h3, h4, h5]

/-- Witness for C3: with every source failing, the snapshot still carries
each per-source result, with the errors recorded. -/
theorem C3_witness :
    (build_payload "2026-10-12T00:00:00+00:00" (fun _ => Except.error "boom")
        (Except.error "b1") (Except.error "b2") (Except.error "b3") (Except.error "b4")
        (Except.error "b5")).feeds.cbp_csms.errors = ["b1"]
    ∧ (build_payload "2026-10-12T00:00:00+00:00" (fun _ => Except.error "boom")
        (Except.error "b1") (Except.error "b2") (Except.error "b3") (Except.error "b4")
        (Except.error "b5")).feeds.retaliation.china_mofcom.errors = ["b4"]
    ∧ (build_payload "2026-10-12T00:00:00+00:00" (fun _ => Except.error "boom")
        (Except.error "b1") (Except.error "b2") (Except.error "b3") (Except.error "b4")
        (Except.error "b5")).feeds.federal_register.errors ≠ [] := by
  obtain ⟨-, -, -, -, -, -, -, -, -, -, -, -, -, -, -, hcbp, heu, huk, hchina, hcan, hfr⟩ :=
    C3_snapshot_complete "2026-10-12T00:00:00+00:00" (fun _ => Except.error "boom")
      (Except.error "b1") (Except.error "b2") (Except.error "b3") (Except.error "b4")
      (Except.error "b5") _ rfl
  exact ⟨(hcbp "b1" rfl).1, hchina "b4" rfl, (hfr (fun t => ⟨"boom", rfl⟩)).1⟩

/-- C4: no item list of any source ever exceeds its configured cap — 80 for
federal_register, 40 for cbp_csms, 25 for eu_commission, uk_dbt and
china_mofcom. -/
theorem C4_item_caps (resp : String → Except String (List FRDoc))
    (x₁ x₂ x₃ : Except String Xml) (x₄ : Except String (List (String × String))) :
    (fetch_federal_register resp).items.length ≤ 80
    ∧ (fetch_cbp_csms x₁).items.length ≤ 40
    ∧ (fetch_eu_feed x₂).items.length ≤ 25
    ∧ (fetch_uk_feed x₃).items.length ≤ 25
    ∧ (fetch_china_mofcom x₄).items.length ≤ 25 := by
  refine ⟨List.length_take_le _ _, ?_, ?_, ?_, ?_⟩
  · cases x₁ with
    | error e => simp [fetch_cbp_csms]
    | ok root => exact List.length_take_le _ _
  · cases x₂ with
    | error e => simp [fetch_eu_feed]
    | ok root => exact List.length_take_le _ _
  · cases x₃ with
    | error e => simp [fetch_uk_feed]
    | ok root => exact List.length_take_le _ _
  · cases x₄ with
    | error e => simp [fetch_china_mofcom, CHINA_PLACEHOLDER]
    | ok ms => exact List.length_take_le _ _

/-- C5: for the strict sources (uk_dbt, cbp_csms) a run whose relevance
filter accepts nothing yields empty `items` and empty `errors`. -/
theorem C5_strict_zero_match (root₁ root₂ : Xml)
    (h₁ : (parse_atom_entries root₁).filter atomFilterUk = [])
    (h₂ : (parse_rss_items root₂).filter rssFilterCbp = []) :
    (fetch_uk_feed (.ok root₁)).items = [] ∧ (fetch_uk_feed (.ok root₁)).errors = []
    ∧ (fetch_cbp_csms (.ok root₂)).items = [] ∧ (fetch_cbp_csms (.ok root₂)).errors = [] := by
  refine ⟨?_, rfl, ?_, rfl⟩
  · show ((parse_atom_entries root₁).filter atomFilterUk).take 25 = []
    rw [h₁]
    rfl
  · show ((parse_rss_items root₂).filter rssFilterCbp).take 40 = []
    rw [h₂]
    rfl

/-- Witness for C5: concrete keyword-free feeds for both strict sources. -/
theorem C5_witness :
    ((parse_atom_entries exAtomNoMatch).filter atomFilterUk = []
      ∧ (fetch_uk_feed (.ok exAtomNoMatch)).items = []
      ∧ (fetch_uk_feed (.ok exAtomNoMatch)).errors = [])
    ∧ ((parse_rss_items exRssNoMatch).filter rssFilterCbp = []
      ∧ (fetch_cbp_csms (.ok exRssNoMatch)).items = []
      ∧ (fetch_cbp_csms (.ok exRssNoMatch)).errors = []) := by
  obtain ⟨ha, hb, hc, hd⟩ := C5_strict_zero_match exAtomNoMatch exRssNoMatch (by decide) (by decide)
  exact ⟨⟨by decide, ha, hb⟩, ⟨by decide, hc, hd⟩⟩

/-- C6: a raised retrieval/parse failure records the exception message in
`errors`; china_mofcom additionally synthesises exactly one placeholder
item whose link is the configured source URL, while cbp_csms, eu_commission
and uk_dbt keep `items` empty. -/
theorem C6_failure_policy (e : String) :
    (fetch_china_mofcom (.error e)).errors = [e]
    ∧ 1 ≤ (fetch_china_mofcom (.error e)).errors.length
    ∧ e ∈ (fetch_china_mofcom (.error e)).errors
    ∧ (fetch_china_mofcom (.error e)).items = [CHINA_PLACEHOLDER]
    ∧ CHINA_PLACEHOLDER.link = CHINA_URL
    ∧ (fetch_cbp_csms (.error e)).errors = [e] ∧ (fetch_cbp_csms (.error e)).items = []
    ∧ (fetch_eu_feed (.error e)).errors = [e] ∧ (fetch_eu_feed (.error e)).items = []
    ∧ (fetch_uk_feed (.error e)).errors = [e] ∧ (fetch_uk_feed (.error e)).items = [] := by
  refine ⟨rfl, by simp [fetch_china_mofcom], ?_, rfl, rfl, rfl, rfl, rfl, rfl, rfl, rfl⟩
  show e ∈ [e]
  simp

/-- C7: the RSS parser maps a root without a `channel` child, or whose
first `channel` has no `item` children, to the empty item sequence. -/
theorem C7_rss_empty_cases (root : Xml) :
    (findChild root "channel" = none → parse_rss_items root = [])
    ∧ (∀ ch, findChild root "channel" = some ch → findAllChildren ch "item" = [] →
        parse_rss_items root = []) := by
  constructor
  · intro h
    unfold parse_rss_items
    rw [h]
  · intro ch h hitems
    unfold parse_rss_items
    rw [h]
    show (findAllChildren ch "item").map _ = []
    rw [hitems]
    rfl

/-- Witness for C7: a channel-less root and an item-less channel. -/
theorem C7_witness :
    (findChild exNoChannel "channel" = none ∧ parse_rss_items exNoChannel = [])
    ∧ (findChild exEmptyChannel "channel"
          = some (Xml.elem "channel" [] none [Xml.elem "other" [] none []])
      ∧ parse_rss_items exEmptyChannel = []) :=
  ⟨⟨rfl, (C7_rss_empty_cases exNoChannel).1 rfl⟩,
    ⟨rfl, (C7_rss_empty_cases exEmptyChannel).2
      (Xml.elem "channel" [] none [Xml.elem "other" [] none []]) rfl rfl⟩⟩

/-- C8: the specified `strip_tags` example — script block removed with its
content, entity decoded, tags stripped, whitespace collapsed and trimmed. -/
theorem C8_strip_tags_example :
    strip_tags "<script>evil()</script>Hello&nbsp;<b>World</b>" = "Hello World" := by
  decide

/-- C9: the federal_register items are sorted in descending lexicographic
order of the string pair (publication_date, document_number), missing
values read as the empty string; the comparison is plain code-point string
order, with no calendar interpretation. -/
theorem C9_sorted_descending (resp : String → Except String (List FRDoc)) :
    ((fetch_federal_register resp).items).Pairwise
      (fun a b => pairLeL (frSortKeyL b) (frSortKeyL a) = true) := by
  have hs := @List.sorted_mergeSort FRItem frLe
    (fun a b c => frLe_trans a b c)
    (fun a b => frLe_total a b)
    ((frMergedOf (FR_TERMS.map (fun t => (t, resp t)))).1.map Prod.snd)
  exact List.Pairwise.sublist (List.take_sublist _ _) hs

set_option maxRecDepth 100000

/-- Counterexample for C10: the RSS `description` field is truncated to 700
characters after normalisation, and the cut can land right after a space —
for `exLongRss` the emitted description ends in a space, so a further
`normalize_ws` changes it. -/
theorem C10_counterexample :
    ¬ (∀ i ∈ parse_rss_items exLongRss, normalize_ws i.description = i.description) := by
  decide

/-- C10 (amended): `normalize_ws` is idempotent and `strip_tags` output is
normalised; every title, link and date field and the Atom summary emitted
by the parsers is unchanged by a further `normalize_ws`.  (The RSS
description is excluded: its 700-character truncation can re-expose
trailing whitespace.) -/
theorem C10_amended_normalized_fields :
    (∀ s, normalize_ws (normalize_ws s) = normalize_ws s)
    ∧ (∀ h, normalize_ws (strip_tags h) = strip_tags h)
    ∧ (∀ root, ∀ i ∈ parse_rss_items root,
        normalize_ws i.title = i.title ∧ normalize_ws i.link = i.link
          ∧ normalize_ws i.pub_date = i.pub_date ∧ normalize_ws i.guid = i.guid)
    ∧ (∀ root, ∀ i ∈ parse_atom_entries root,
        normalize_ws i.title = i.title ∧ normalize_ws i.link = i.link
          ∧ normalize_ws i.updated = i.updated ∧ normalize_ws i.summary = i.summary) := by
  refine ⟨normalize_ws_idem, strip_tags_normalized, ?_, ?_⟩
  · intro root i hi
    unfold parse_rss_items at hi
    cases hch : findChild root "channel" with
    | none => rw [hch] at hi; simp at hi
    | some ch =>
      rw [hch] at hi
      simp only [List.mem_map] at hi
      obtain ⟨item, -, rfl⟩ := hi
      exact ⟨normalize_ws_idem _, normalize_ws_idem _, normalize_ws_idem _, normalize_ws_idem _⟩
  · intro root i hi
    unfold parse_atom_entries at hi
    simp only [List.mem_map] at hi
    obtain ⟨entry, -, rfl⟩ := hi
    refine ⟨normalize_ws_idem _, ?_, normalize_ws_idem _, normalize_ws_idem _⟩
    show normalize_ws (match findChild entry (atomTag "link") with
      | none => ""
      | some ln => normalize_ws ((ln.attrs.lookup "href").getD "")) = _
    cases findChild entry (atomTag "link") with
    | none => rfl
    | some ln => exact normalize_ws_idem _

/-- Witness for the amended C10: the concrete parsed RSS item and Atom
entry have fixed-point fields. -/
theorem C10_amended_witness :
    (exRssItem ∈ parse_rss_items exRssMatch
      ∧ normalize_ws exRssItem.title = exRssItem.title
      ∧ normalize_ws exRssItem.link = exRssItem.link)
    ∧ (exAtomEntry ∈ parse_atom_entries exAtomMatch
      ∧ normalize_ws exAtomEntry.title = exAtomEntry.title
      ∧ normalize_ws exAtomEntry.summary = exAtomEntry.summary) := by
  have h₁ := C10_amended_normalized_fields.2.2.1 exRssMatch exRssItem (by decide)
  have h₂ := C10_amended_normalized_fields.2.2.2 exAtomMatch exAtomEntry (by decide)
  exact ⟨⟨by decide, h₁.1, h₁.2.1⟩, ⟨by decide, h₂.1, h₂.2.2.2⟩⟩
